import Mathlib

/-!
Shallow embedding of the jaime action-tree resolution engine, translated from
src/runner.rs of the repository (the variant of Action::run that supports the
command-line preselection and the three picker back-ends).

Modeling conventions:
* Rust strings are lists of characters (`Str`).
* The Select children `HashMap<String, Action>` is modeled as the association
  list in configuration (insertion) order; the map's unspecified key iteration
  order, used by `options.keys()`, is supplied as an oracle (`Env.iter`).
* The interactive collaborators (readline, shell output capture, the picker;
  the three picker back-ends share one request/response contract) are oracles
  in `Env`, and every externally visible effect of an evaluation is recorded
  in an event trace.  The colored-terminal combinators (`green`, `bold`,
  `magenta`) are pure display styling (disabled under NO_COLOR) and are
  modeled as the identity on the text.
* The global NUM_RUNS counter is threaded through the evaluation explicitly.
-/

namespace Jaime

/-- Rust strings, modeled as lists of characters. -/
abbrev Str := List Char

/-- Decimal digit character, as produced by integer formatting. -/
def digitChar : Nat → Char
  | 0 => '0'
  | 1 => '1'
  | 2 => '2'
  | 3 => '3'
  | 4 => '4'
  | 5 => '5'
  | 6 => '6'
  | 7 => '7'
  | 8 => '8'
  | _ => '9'

/-- The ten decimal digit characters. -/
def digitChars : List Char := ['0', '1', '2', '3', '4', '5', '6', '7', '8', '9']

/-- Numeric value of a digit character. -/
def charVal (c : Char) : Nat := c.toNat - 48

/-- Numeric value of a most-significant-first digit string. -/
def natVal (ds : List Char) : Nat := ds.foldl (fun a c => 10 * a + charVal c) 0

/-- Decimal digits of a natural number, most significant first.  The first
argument is fuel bounding the loop; `n + 1` always suffices. -/
def natDigitsAux : Nat → Nat → List Char → List Char
  | 0, _, acc => acc
  | fuel + 1, n, acc =>
    if n < 10 then digitChar n :: acc
    else natDigitsAux fuel (n / 10) (digitChar (n % 10) :: acc)

/-- Decimal representation of a natural number. -/
def natDigits (n : Nat) : List Char := natDigitsAux (n + 1) n []

/-- Text of the placeholder for argument `i`, as built by the Rust format
call in Action::run: an opening brace, the decimal index, a closing brace. -/
def placeholder (i : Nat) : Str := '{' :: (natDigits i ++ ['}'])

/-- Rust `str::replace`: replace every non-overlapping occurrence of `pat`,
scanning left to right.  The fuel argument bounds the scan; fuel equal to the
length of the scanned string suffices (the engine only ever calls this with a
nonempty pattern, and the guard keeps an empty pattern from looping). -/
def replaceAllFuel (pat rep : Str) : Nat → Str → Str
  | _, [] => []
  | 0, s => s
  | fuel + 1, c :: rest =>
    if pat ≠ [] ∧ pat.isPrefixOf (c :: rest) then
      rep ++ replaceAllFuel pat rep fuel (List.drop pat.length (c :: rest))
    else
      c :: replaceAllFuel pat rep fuel rest

/-- Rust `s.replace(pat, rep)`. -/
def replaceAll (s pat rep : Str) : Str := replaceAllFuel pat rep s.length s

/-- Substitution loop of Action::run: replace placeholder `start + k` by the
k-th argument, one `str::replace` per collected argument, in order. -/
def substAux (cmd : Str) (args : List Str) (start : Nat) : Str :=
  match args with
  | [] => cmd
  | a :: rest => substAux (replaceAll cmd (placeholder start) a) rest (start + 1)

/-- Full substitution, indices starting at 0 (the final-template loop). -/
def substTemplate (cmd : Str) (args : List Str) : Str := substAux cmd args 0

/-- Widget (runner.rs): one argument-collection step inside a Command. -/
inductive Widget where
  | fromCommand (command : Str) (preview : Option Str)
  | freeText

/-- Action (runner.rs): one node of the configuration tree. -/
inductive Action where
  | command (description : Option Str) (cmd : Str) (widgets : Option (List Widget))
  | select (description : Option Str) (options : List (Str × Action))

/-- HashMap::get on the modeled children mapping (key equality lookup). -/
def lookupOpt : List (Str × Action) → Str → Option Action
  | [], _ => none
  | (k, v) :: rest, key => if k = key then some v else lookupOpt rest key

/-- Candidate line for one Select child, from runner.rs: the label, with
a colon, a space and the child node's description appended when the child
(Select or Command) carries a `Some` description. -/
def fmtCandidate (k : Str) (child : Option Action) : Str :=
  match child with
  | some (Action.select (some d) _) => k ++ ':' :: ' ' :: d
  | some (Action.command (some d) _ _) => k ++ ':' :: ' ' :: d
  | _ => k

/-- Candidate lines of a Select, for a given key iteration order. -/
def selectCandidates (keys : List Str) (opts : List (Str × Action)) : List Str :=
  keys.map (fun k => fmtCandidate k (lookupOpt opts k))

/-- Input string handed to the picker: candidate lines joined by newlines. -/
def selectInput (keys : List Str) (opts : List (Str × Action)) : Str :=
  List.intercalate ['\n'] (selectCandidates keys opts)

/-- Modelled from the spec: the candidate list in the insertion order of the
configuration, which the spec asserts is the displayed order. -/
def insertionOrderCandidates (opts : List (Str × Action)) : List Str :=
  selectCandidates (opts.map Prod.fst) opts

/-- Description field of a child node, whichever variant it is. -/
def childDescription : Option Action → Option Str
  | some (Action.select d _) => d
  | some (Action.command d _ _) => d
  | none => none

/-- Modelled from the spec's words (amended): append the description exactly
when the child carries one. -/
def specCandidate (k : Str) (child : Option Action) : Str :=
  match childDescription child with
  | some d => k ++ ':' :: ' ' :: d
  | none => k

/-- Key recovery from a picked line, from runner.rs: when the line contains a
colon, split on colons and keep the first piece (the text before the first
colon); otherwise use the line unchanged. -/
def stripLabel (s : Str) : Str :=
  if ':' ∈ s then s.takeWhile (fun c => c != ':') else s

/-- Oracles for the engine's collaborators: the preselection flag and value
(Handler::has_command / Handler::command), readline results by call count,
captured shell output by command text, the picker (one contract shared by the
skim library, the fzf binary and the skim binary back-ends), and the hash
map's key iteration order. -/
structure Env where
  hasCommand : Bool
  commandArg : Str
  readline : Nat → Except Str Str
  shellOut : Str → Str
  pick : Str → Option Str → Option Str
  iter : List (Str × Action) → List Str

/-- Externally visible effects of one evaluation, in order. -/
inductive Event where
  | captureRun (cmd : Str)
  | execRun (cmd : Str)
  | pickerCall (input : Str) (preview : Option Str)
  | readlineCall
  | errorPrint (labels : List Str)
  | bypass
deriving DecidableEq

/-- Result of one evaluation: Ok, an error value, or process termination. -/
inductive Outcome where
  | ok
  | err (msg : Str)
  | exit (code : Nat)
deriving DecidableEq

/-- Result of the widget loop of a Command evaluation. -/
inductive WidgetsResult where
  | done (args : List Str)
  | cancelled
  | failed (msg : Str)
deriving DecidableEq

/-- Test for the preselection-consumption marker event. -/
def isBypass : Event → Bool
  | Event.bypass => true
  | _ => false

/-- Number of preselection-consumption markers in a trace. -/
def countBypass (evs : List Event) : Nat := (evs.filter isBypass).length

/-- Widget loop of Action::run for a Command node.  `index` is the zero-based
step index, `args` the already-collected arguments, `rl` the readline call
count.  FreeText pushes the readline result or propagates its failure;
FromCommand substitutes the already-collected arguments (`.take index`) into
its template, captures the shell output, invokes the picker, and either
pushes the selection or cancels the whole Command (successfully). -/
def runWidgets (env : Env) : List Widget → Nat → List Str → Nat →
    WidgetsResult × Nat × List Event
  | [], _, args, rl => (WidgetsResult.done args, rl, [])
  | Widget.freeText :: rest, index, args, rl =>
    match env.readline rl with
    | Except.error e => (WidgetsResult.failed e, rl + 1, [Event.readlineCall])
    | Except.ok line =>
      let r := runWidgets env rest (index + 1) (args ++ [line]) (rl + 1)
      (r.1, r.2.1, Event.readlineCall :: r.2.2)
  | Widget.fromCommand c p :: rest, index, args, rl =>
    let cmd := substAux c (args.take index) 0
    let out := env.shellOut cmd
    match env.pick out p with
    | some sel =>
      let r := runWidgets env rest (index + 1) (args ++ [sel]) rl
      (r.1, r.2.1, Event.captureRun cmd :: Event.pickerCall out p :: r.2.2)
    | none =>
      (WidgetsResult.cancelled, rl, [Event.captureRun cmd, Event.pickerCall out p])

/-- Action::run (runner.rs), returning the outcome, the updated NUM_RUNS
counter, the updated readline call count, and the event trace. -/
def runAction (env : Env) (a : Action) (runs : Nat) (rl : Nat) :
    Outcome × Nat × Nat × List Event :=
  match a with
  | Action.command _ cmd widgets =>
    let w := match widgets with
      | none => (WidgetsResult.done [], rl, ([] : List Event))
      | some ws => runWidgets env ws 0 [] rl
    match w.1 with
    | WidgetsResult.done args =>
      (Outcome.ok, runs, w.2.1, w.2.2 ++ [Event.execRun (substTemplate cmd args)])
    | WidgetsResult.cancelled => (Outcome.ok, runs, w.2.1, w.2.2)
    | WidgetsResult.failed e => (Outcome.err e, runs, w.2.1, w.2.2)
  | Action.select _ opts =>
    if env.hasCommand ∧ runs = 0 then
      if env.commandArg ∈ env.iter opts then
        match h : lookupOpt opts (stripLabel env.commandArg) with
        | some child =>
          let r := runAction env child (runs + 1) rl
          (r.1, r.2.1, r.2.2.1, Event.bypass :: r.2.2.2)
        | none => (Outcome.ok, runs, rl, [Event.bypass])
      else (Outcome.exit 1, runs, rl, [Event.errorPrint (env.iter opts)])
    else
      match env.pick (selectInput (env.iter opts) opts) none with
      | none =>
        (Outcome.ok, runs, rl, [Event.pickerCall (selectInput (env.iter opts) opts) none])
      | some sel =>
        match h2 : lookupOpt opts (stripLabel sel) with
        | some child =>
          let r := runAction env child (runs + 1) rl
          (r.1, r.2.1, r.2.2.1,
            Event.pickerCall (selectInput (env.iter opts) opts) none :: r.2.2.2)
        | none =>
          (Outcome.ok, runs, rl, [Event.pickerCall (selectInput (env.iter opts) opts) none])
termination_by sizeOf a
decreasing_by
  all_goals
    (have key : ∀ (l : List (Str × Action)) (kk : Str) (b : Action),
         lookupOpt l kk = some b → sizeOf b < 1 + sizeOf l := by
       intro l kk b
       induction l with
       | nil => intro hb; simp [lookupOpt] at hb
       | cons pr rest ih =>
         intro hb
         obtain ⟨k0, v0⟩ := pr
         simp only [lookupOpt] at hb
         split at hb
         · cases hb
           simp only [List.cons.sizeOf_spec, Prod.mk.sizeOf_spec]
           omega
         · have := ih hb
           simp only [List.cons.sizeOf_spec]
           omega
     simp only [Action.select.sizeOf_spec]
     first
     | (have hlt := key _ _ _ h; omega)
     | (have hlt := key _ _ _ h2; omega))

/-- Argument vector built by run_shell (runner.rs): strict-mode flags for zsh
or bash, then the -c argument and the command. -/
def run_shell_argv (shell cmd : Str) : List Str :=
  (if shell = "zsh".data then
     ["--shwordsplit".data, "--no-unset".data, "--errexit".data]
   else if shell = "bash".data then ["-e".data, "-u".data]
   else []) ++ ["-c".data, cmd]

/-- Argument vector built by run_shell_command_for_output (runner.rs): the
same flag selection as run_shell, then the -c argument and the command. -/
def run_shell_command_for_output_argv (shell cmd : Str) : List Str :=
  (if shell = "zsh".data then
     ["--shwordsplit".data, "--no-unset".data, "--errexit".data]
   else if shell = "bash".data then ["-e".data, "-u".data]
   else []) ++ ["-c".data, cmd]

/-- Concrete fixture: a Command leaf with no description and no widgets. -/
def actA : Action := Action.command none "echo a".data none

/-- Concrete fixture: a second Command leaf. -/
def actB : Action := Action.command none "echo b".data none

/-- Concrete fixture: a two-child Select children list. -/
def optsAB : List (Str × Action) := [("A".data, actA), ("B".data, actB)]

/-- Concrete fixture: one child whose description is present but empty. -/
def optsEmptyDesc : List (Str × Action) :=
  [("A".data, Action.command (some []) "c".data none)]

/-- Concrete fixture: children as in the spec example, A with a description
and B without one. -/
def optsDesc : List (Str × Action) :=
  [("A".data, Action.command (some "desc1".data) "x".data none), ("B".data, actB)]

/-- Key iteration order equal to the insertion order. -/
def insertionIter : List (Str × Action) → List Str := fun opts => opts.map Prod.fst

/-- Key iteration order reversing the insertion order (a legal iteration
order of the hash map, which fixes no particular order). -/
def reverseIter : List (Str × Action) → List Str :=
  fun opts => (opts.map Prod.fst).reverse

/-- Concrete oracle environment: no preselection, readline yields "foo",
picker always cancels, keys iterate in insertion order. -/
def envBase : Env :=
  { hasCommand := false,
    commandArg := [],
    readline := fun _ => Except.ok "foo".data,
    shellOut := fun _ => "x\ny".data,
    pick := fun _ _ => none,
    iter := insertionIter }

/-- Concrete oracle environment whose picker always answers "B". -/
def envPickB : Env := { envBase with pick := fun _ _ => some "B".data }

/-- Concrete oracle environment whose picker always answers "Z". -/
def envPickZ : Env := { envBase with pick := fun _ _ => some "Z".data }

/-- Concrete oracle environment with an invalid preselection. -/
def envPreBad : Env := { envBase with hasCommand := true, commandArg := "zzz".data }

/-- Concrete oracle environment with the valid preselection "A". -/
def envPreA : Env := { envBase with hasCommand := true, commandArg := "A".data }

/-- Concrete oracle environment iterating keys in reversed order. -/
def envRev : Env := { envBase with iter := reverseIter }

/-! Helper lemmas about decimal digits, placeholders and substitution. -/

theorem digitChar_mem (n : Nat) : digitChar n ∈ digitChars := by
  unfold digitChar
  split <;> decide

theorem charVal_digitChar (d : Nat) (h : d < 10) : charVal (digitChar d) = d := by
  interval_cases d <;> decide

theorem natDigitsAux_mem :
    ∀ (fuel n : Nat) (acc : List Char), (∀ c ∈ acc, c ∈ digitChars) →
      ∀ c ∈ natDigitsAux fuel n acc, c ∈ digitChars := by
  intro fuel
  induction fuel with
  | zero => intro n acc hacc c hc; exact hacc c hc
  | succ f ih =>
    intro n acc hacc c hc
    simp only [natDigitsAux] at hc
    split at hc
    · rcases List.mem_cons.mp hc with h | h
      · exact h ▸ digitChar_mem n
      · exact hacc c h
    · refine ih (n / 10) _ ?_ c hc
      intro c2 hc2
      rcases List.mem_cons.mp hc2 with h | h
      · exact h ▸ digitChar_mem (n % 10)
      · exact hacc c2 h

theorem natDigitsAux_acc :
    ∀ (fuel n : Nat) (acc : List Char),
      natDigitsAux fuel n acc = natDigitsAux fuel n [] ++ acc := by
  intro fuel
  induction fuel with
  | zero => intro n acc; simp [natDigitsAux]
  | succ f ih =>
    intro n acc
    simp only [natDigitsAux]
    split
    · simp
    · rw [ih (n / 10) (digitChar (n % 10) :: acc), ih (n / 10) [digitChar (n % 10)]]
      simp

theorem natVal_append_single (ds : List Char) (c : Char) :
    natVal (ds ++ [c]) = 10 * natVal ds + charVal c := by
  simp [natVal, List.foldl_append]

theorem natVal_natDigitsAux :
    ∀ (fuel n : Nat), n < fuel → natVal (natDigitsAux fuel n []) = n := by
  intro fuel
  induction fuel with
  | zero => intro n h; omega
  | succ f ih =>
    intro n h
    simp only [natDigitsAux]
    split
    · rename_i h10
      simp [natVal, charVal_digitChar n h10]
    · rename_i h10
      push_neg at h10
      have hdiv : n / 10 < n := Nat.div_lt_self (by omega) (by norm_num)
      rw [natDigitsAux_acc, natVal_append_single, ih (n / 10) (by omega),
        charVal_digitChar (n % 10) (Nat.mod_lt n (by norm_num))]
      omega

theorem natVal_natDigits (n : Nat) : natVal (natDigits n) = n :=
  natVal_natDigitsAux (n + 1) n (Nat.lt_succ_self n)

theorem natDigits_inj {k m : Nat} (h : natDigits k = natDigits m) : k = m := by
  have := natVal_natDigits k
  rw [h, natVal_natDigits] at this
  exact this.symm

theorem mem_natDigits_digit {n : Nat} {c : Char} (h : c ∈ natDigits n) :
    c ∈ digitChars :=
  natDigitsAux_mem (n + 1) n [] (by simp) c h

theorem lbrace_not_mem_natDigits (n : Nat) : '{' ∉ natDigits n := by
  intro h
  exact absurd (mem_natDigits_digit h) (by decide)

theorem rbrace_not_mem_natDigits (n : Nat) : '}' ∉ natDigits n := by
  intro h
  exact absurd (mem_natDigits_digit h) (by decide)

theorem rbraceDigitsCancel :
    ∀ (xs ys : List Char), '}' ∉ xs → '}' ∉ ys →
      xs ++ ['}'] <+: ys ++ ['}'] → xs = ys := by
  intro xs
  induction xs with
  | nil =>
    intro ys hx hy hp
    cases ys with
    | nil => rfl
    | cons b ys' =>
      exfalso
      simp only [List.nil_append, List.cons_append] at hp
      rw [List.cons_prefix_cons] at hp
      exact hy (hp.1 ▸ List.mem_cons_self b ys')
  | cons a xs' ih =>
    intro ys hx hy hp
    cases ys with
    | nil =>
      exfalso
      simp only [List.cons_append, List.nil_append] at hp
      rw [List.cons_prefix_cons] at hp
      exact hx (hp.1 ▸ List.mem_cons_self a xs')
    | cons b ys' =>
      simp only [List.cons_append] at hp
      rw [List.cons_prefix_cons] at hp
      obtain ⟨hab, hp'⟩ := hp
      subst hab
      rw [ih ys' (fun h => hx (List.mem_cons_of_mem _ h))
        (fun h => hy (List.mem_cons_of_mem _ h)) hp']

theorem braceOccurrenceHead {p t : List Char} (ht : '{' ∉ t) :
    ('{' :: p) <:+: ('{' :: t) → ('{' :: p) <+: ('{' :: t) := by
  rintro ⟨s, u, hsu⟩
  cases s with
  | nil => exact ⟨u, by simpa using hsu⟩
  | cons a s' =>
    exfalso
    simp only [List.cons_append, List.append_assoc] at hsu
    injection hsu with h1 h2
    apply ht
    rw [← h2]
    simp

theorem placeholderNotOccur {k m : Nat} (hkm : k ≠ m) :
    ¬ placeholder k <:+: placeholder m := by
  intro hinf
  simp only [placeholder] at hinf
  have ht : '{' ∉ natDigits m ++ ['}'] := by
    intro h
    rcases List.mem_append.mp h with h | h
    · exact lbrace_not_mem_natDigits m h
    · exact absurd h (by decide)
  have hpre := braceOccurrenceHead ht hinf
  rw [List.cons_prefix_cons] at hpre
  exact hkm (natDigits_inj
    (rbraceDigitsCancel _ _ (rbrace_not_mem_natDigits k) (rbrace_not_mem_natDigits m)
      hpre.2))

theorem replaceAllFuel_self {pat rep : Str} :
    ∀ (fuel : Nat) (s : Str), ¬ pat <:+: s → replaceAllFuel pat rep fuel s = s := by
  intro fuel
  induction fuel with
  | zero => intro s h; cases s <;> simp [replaceAllFuel]
  | succ f ih =>
    intro s h
    cases s with
    | nil => simp [replaceAllFuel]
    | cons c rest =>
      simp only [replaceAllFuel]
      rw [if_neg, ih rest (fun hi => h (List.infix_cons hi))]
      rintro ⟨hne, hpre⟩
      exact h (List.IsPrefix.isInfix (List.isPrefixOf_iff_prefix.mp hpre))

theorem replaceAll_self {pat rep s : Str} (h : ¬ pat <:+: s) :
    replaceAll s pat rep = s :=
  replaceAllFuel_self s.length s h

theorem substAux_placeholder :
    ∀ (args : List Str) (start m : Nat), m < start ∨ start + args.length ≤ m →
      substAux (placeholder m) args start = placeholder m := by
  intro args
  induction args with
  | nil => intro start m h; simp [substAux]
  | cons a rest ih =>
    intro start m h
    simp only [List.length_cons] at h
    simp only [substAux]
    rw [replaceAll_self (placeholderNotOccur (show start ≠ m by omega))]
    exact ih (start + 1) m (by omega)

theorem substTemplate_placeholder {args : List Str} {m : Nat} (h : args.length ≤ m) :
    substTemplate (placeholder m) args = placeholder m :=
  substAux_placeholder args 0 m (Or.inr (by omega))

/-! Helper lemmas about takeWhile-based key recovery. -/

theorem takeWhile_append_stop {p : Char → Bool} :
    ∀ (l : List Char) (x : Char) (t : List Char),
      (∀ c ∈ l, p c = true) → p x = false → List.takeWhile p (l ++ x :: t) = l := by
  intro l
  induction l with
  | nil => intro x t h hp; simp [List.takeWhile_cons, hp]
  | cons a l' ih =>
    intro x t h hp
    simp only [List.cons_append, List.takeWhile_cons, h a (List.mem_cons_self a l'),
      if_true]
    rw [ih x t (fun c hc => h c (List.mem_cons_of_mem a hc)) hp]

/-! Helper lemmas about widget-loop traces and the bypass counter. -/

theorem countBypass_cons (e : Event) (evs : List Event) :
    countBypass (e :: evs) = (if isBypass e then 1 else 0) + countBypass evs := by
  simp only [countBypass, List.filter_cons]
  split <;> simp [Nat.add_comm]

theorem countBypass_append (l1 l2 : List Event) :
    countBypass (l1 ++ l2) = countBypass l1 + countBypass l2 := by
  simp [countBypass, List.filter_append]

theorem runWidgets_no_exec :
    ∀ (ws : List Widget) (env : Env) (index : Nat) (args : List Str) (rl : Nat)
      (s : Str), Event.execRun s ∉ (runWidgets env ws index args rl).2.2 := by
  intro ws
  induction ws with
  | nil => intro env index args rl s; simp [runWidgets]
  | cons w rest ih =>
    intro env index args rl s
    cases w with
    | freeText =>
      simp only [runWidgets]
      rcases hr : env.readline rl with e | line
      · simp
      · simpa using ih env (index + 1) (args ++ [line]) (rl + 1) s
    | fromCommand c p =>
      simp only [runWidgets]
      rcases hp : env.pick (env.shellOut (substAux c (args.take index) 0)) p with _ | sel
      · simp
      · simpa using ih env (index + 1) (args ++ [sel]) rl s

theorem runWidgets_no_bypass :
    ∀ (ws : List Widget) (env : Env) (index : Nat) (args : List Str) (rl : Nat),
      countBypass (runWidgets env ws index args rl).2.2 = 0 := by
  intro ws
  induction ws with
  | nil => intro env index args rl; simp [runWidgets, countBypass]
  | cons w rest ih =>
    intro env index args rl
    cases w with
    | freeText =>
      simp only [runWidgets]
      rcases hr : env.readline rl with e | line
      · simp [countBypass, isBypass]
      · simpa [countBypass_cons, isBypass] using ih env (index + 1) (args ++ [line]) (rl + 1)
    | fromCommand c p =>
      simp only [runWidgets]
      rcases hp : env.pick (env.shellOut (substAux c (args.take index) 0)) p with _ | sel
      · simp [countBypass, isBypass]
      · simpa [countBypass_cons, isBypass] using ih env (index + 1) (args ++ [sel]) rl

theorem lookupOpt_sizeOf :
    ∀ (l : List (Str × Action)) (key : Str) (b : Action),
      lookupOpt l key = some b → sizeOf b < 1 + sizeOf l := by
  intro l key b
  induction l with
  | nil => intro hb; simp [lookupOpt] at hb
  | cons pr rest ih =>
    intro hb
    obtain ⟨k0, v0⟩ := pr
    simp only [lookupOpt] at hb
    split at hb
    · cases hb
      simp only [List.cons.sizeOf_spec, Prod.mk.sizeOf_spec]
      omega
    · have := ih hb
      simp only [List.cons.sizeOf_spec]
      omega

/-! Unfolding lemmas for each evaluation path of Action::run. -/

theorem command_none_eq (env : Env) (d : Option Str) (cmd : Str) (runs rl : Nat) :
    runAction env (Action.command d cmd none) runs rl
      = (Outcome.ok, runs, rl, [Event.execRun cmd]) := by
  rw [runAction.eq_def]
  simp [substTemplate, substAux]

theorem command_done_eq (env : Env) (d : Option Str) (cmd : Str) (ws : List Widget)
    (runs rl : Nat) (args : List Str) (rl2 : Nat) (evs : List Event)
    (hw : runWidgets env ws 0 [] rl = (WidgetsResult.done args, rl2, evs)) :
    runAction env (Action.command d cmd (some ws)) runs rl
      = (Outcome.ok, runs, rl2, evs ++ [Event.execRun (substTemplate cmd args)]) := by
  rw [runAction.eq_def]
  simp [hw]

theorem command_cancelled_eq (env : Env) (d : Option Str) (cmd : Str) (ws : List Widget)
    (runs rl : Nat) (rl2 : Nat) (evs : List Event)
    (hw : runWidgets env ws 0 [] rl = (WidgetsResult.cancelled, rl2, evs)) :
    runAction env (Action.command d cmd (some ws)) runs rl
      = (Outcome.ok, runs, rl2, evs) := by
  rw [runAction.eq_def]
  simp [hw]

theorem command_failed_eq (env : Env) (d : Option Str) (cmd : Str) (ws : List Widget)
    (runs rl : Nat) (e : Str) (rl2 : Nat) (evs : List Event)
    (hw : runWidgets env ws 0 [] rl = (WidgetsResult.failed e, rl2, evs)) :
    runAction env (Action.command d cmd (some ws)) runs rl
      = (Outcome.err e, runs, rl2, evs) := by
  rw [runAction.eq_def]
  simp [hw]

theorem select_pick_none_eq (env : Env) (d : Option Str) (opts : List (Str × Action))
    (runs rl : Nat) (hc : ¬ (env.hasCommand = true ∧ runs = 0))
    (hp : env.pick (selectInput (env.iter opts) opts) none = none) :
    runAction env (Action.select d opts) runs rl
      = (Outcome.ok, runs, rl,
          [Event.pickerCall (selectInput (env.iter opts) opts) none]) := by
  rw [runAction.eq_def]
  dsimp only
  rw [if_neg hc, hp]

theorem select_pick_some_some_eq (env : Env) (d : Option Str)
    (opts : List (Str × Action)) (runs rl : Nat) (sel : Str) (child : Action)
    (hc : ¬ (env.hasCommand = true ∧ runs = 0))
    (hp : env.pick (selectInput (env.iter opts) opts) none = some sel)
    (hl : lookupOpt opts (stripLabel sel) = some child) :
    runAction env (Action.select d opts) runs rl
      = ((runAction env child (runs + 1) rl).1,
         (runAction env child (runs + 1) rl).2.1,
         (runAction env child (runs + 1) rl).2.2.1,
         Event.pickerCall (selectInput (env.iter opts) opts) none
           :: (runAction env child (runs + 1) rl).2.2.2) := by
  rw [runAction.eq_def]
  dsimp only
  rw [if_neg hc, hp]
  dsimp only
  split
  · rename_i child2 heq
    rw [hl] at heq
    injection heq with heq
    subst heq
    rfl
  · rename_i heq
    rw [hl] at heq
    exact Option.noConfusion heq

theorem select_pick_some_none_eq (env : Env) (d : Option Str)
    (opts : List (Str × Action)) (runs rl : Nat) (sel : Str)
    (hc : ¬ (env.hasCommand = true ∧ runs = 0))
    (hp : env.pick (selectInput (env.iter opts) opts) none = some sel)
    (hl : lookupOpt opts (stripLabel sel) = none) :
    runAction env (Action.select d opts) runs rl
      = (Outcome.ok, runs, rl,
          [Event.pickerCall (selectInput (env.iter opts) opts) none]) := by
  rw [runAction.eq_def]
  dsimp only
  rw [if_neg hc, hp]
  dsimp only
  split
  · rename_i child2 heq
    rw [hl] at heq
    exact Option.noConfusion heq
  · rfl

theorem select_invalid_eq (env : Env) (d : Option Str) (opts : List (Str × Action))
    (rl : Nat) (hh : env.hasCommand = true) (hm : env.commandArg ∉ env.iter opts) :
    runAction env (Action.select d opts) 0 rl
      = (Outcome.exit 1, 0, rl, [Event.errorPrint (env.iter opts)]) := by
  rw [runAction.eq_def]
  dsimp only
  rw [if_pos ⟨hh, rfl⟩, if_neg hm]

theorem select_bypass_some_eq (env : Env) (d : Option Str)
    (opts : List (Str × Action)) (rl : Nat) (child : Action)
    (hh : env.hasCommand = true) (hm : env.commandArg ∈ env.iter opts)
    (hl : lookupOpt opts (stripLabel env.commandArg) = some child) :
    runAction env (Action.select d opts) 0 rl
      = ((runAction env child 1 rl).1, (runAction env child 1 rl).2.1,
         (runAction env child 1 rl).2.2.1,
         Event.bypass :: (runAction env child 1 rl).2.2.2) := by
  rw [runAction.eq_def]
  dsimp only
  rw [if_pos ⟨hh, rfl⟩, if_pos hm]
  split
  · rename_i child2 heq
    rw [hl] at heq
    injection heq with heq
    subst heq
    rfl
  · rename_i heq
    rw [hl] at heq
    exact Option.noConfusion heq

theorem select_bypass_none_eq (env : Env) (d : Option Str)
    (opts : List (Str × Action)) (rl : Nat)
    (hh : env.hasCommand = true) (hm : env.commandArg ∈ env.iter opts)
    (hl : lookupOpt opts (stripLabel env.commandArg) = none) :
    runAction env (Action.select d opts) 0 rl
      = (Outcome.ok, 0, rl, [Event.bypass]) := by
  rw [runAction.eq_def]
  dsimp only
  rw [if_pos ⟨hh, rfl⟩, if_pos hm]
  split
  · rename_i child2 heq
    rw [hl] at heq
    exact Option.noConfusion heq
  · rfl

theorem bypassAux :
    ∀ (n : Nat) (env : Env) (a : Action) (runs rl : Nat), sizeOf a ≤ n →
      countBypass (runAction env a runs rl).2.2.2 ≤ 1
        ∧ (runs ≠ 0 → countBypass (runAction env a runs rl).2.2.2 = 0) := by
  intro n
  induction n with
  | zero =>
    intro env a runs rl h
    exfalso
    cases a <;>
      simp only [Action.command.sizeOf_spec, Action.select.sizeOf_spec] at h <;> omega
  | succ n ih =>
    intro env a runs rl h
    cases a with
    | command d c w =>
      rcases w with _ | ws
      · rw [command_none_eq]
        simp [countBypass, isBypass]
      · rcases hw : runWidgets env ws 0 [] rl with ⟨wres, rl2, evs⟩
        have hnb : countBypass evs = 0 := by
          have := runWidgets_no_bypass ws env 0 [] rl
          rw [hw] at this
          exact this
        cases wres with
        | done args =>
          rw [command_done_eq env d c ws runs rl args rl2 evs hw]
          dsimp only
          rw [countBypass_append, hnb]
          simp [countBypass, isBypass]
        | cancelled =>
          rw [command_cancelled_eq env d c ws runs rl rl2 evs hw]
          simp [hnb]
        | failed e =>
          rw [command_failed_eq env d c ws runs rl e rl2 evs hw]
          simp [hnb]
    | select d opts =>
      by_cases hc : env.hasCommand = true ∧ runs = 0
      · obtain ⟨hh, hr0⟩ := hc
        subst hr0
        by_cases hm : env.commandArg ∈ env.iter opts
        · rcases hl : lookupOpt opts (stripLabel env.commandArg) with _ | child
          · rw [select_bypass_none_eq env d opts rl hh hm hl]
            constructor
            · simp [countBypass, isBypass]
            · intro hr; exact absurd rfl hr
          · rw [select_bypass_some_eq env d opts rl child hh hm hl]
            have hsz := lookupOpt_sizeOf opts (stripLabel env.commandArg) child hl
            have hrec := ih env child 1 rl (by
              simp only [Action.select.sizeOf_spec] at h; omega)
            have h0 := hrec.2 (by omega)
            constructor
            · rw [countBypass_cons]
              simp [isBypass, h0]
            · intro hr; exact absurd rfl hr
        · rw [select_invalid_eq env d opts rl hh hm]
          simp [countBypass, isBypass]
      · rcases hp : env.pick (selectInput (env.iter opts) opts) none with _ | sel
        · rw [select_pick_none_eq env d opts runs rl hc hp]
          simp [countBypass, isBypass]
        · rcases hl : lookupOpt opts (stripLabel sel) with _ | child
          · rw [select_pick_some_none_eq env d opts runs rl sel hc hp hl]
            simp [countBypass, isBypass]
          · rw [select_pick_some_some_eq env d opts runs rl sel child hc hp hl]
            have hsz := lookupOpt_sizeOf opts (stripLabel sel) child hl
            have hrec := ih env child (runs + 1) rl (by
              simp only [Action.select.sizeOf_spec] at h; omega)
            have h0 := hrec.2 (by omega)
            rw [countBypass_cons]
            simp [isBypass, h0]

/-! Claim theorems. -/

/-- C1: when all widgets of a Command complete with collected arguments
`args`, the evaluation succeeds and executes exactly the string obtained from
the Command's template by the substitution loop (placeholder `k` replaced by
the k-th argument for every `k` below the number of arguments); a placeholder
whose index is at least the number of collected arguments is left textually
unmodified; the spec's example "run {0} {1}" with ["foo", "bar"] yields
exactly "run foo bar". -/
theorem C1 :
    (∀ (env : Env) (d : Option Str) (tmpl : Str) (ws : List Widget)
        (runs rl : Nat) (args : List Str) (rl2 : Nat) (evs : List Event),
        runWidgets env ws 0 [] rl = (WidgetsResult.done args, rl2, evs) →
        runAction env (Action.command d tmpl (some ws)) runs rl
          = (Outcome.ok, runs, rl2, evs ++ [Event.execRun (substTemplate tmpl args)]))
      ∧ (∀ (args : List Str) (m : Nat), args.length ≤ m →
          substTemplate (placeholder m) args = placeholder m)
      ∧ substTemplate "run {0} {1}".data ["foo".data, "bar".data]
          = "run foo bar".data := by
  refine ⟨?_, ?_, by decide⟩
  · intro env d tmpl ws runs rl args rl2 evs hw
    exact command_done_eq env d tmpl ws runs rl args rl2 evs hw
  · intro args m hm
    exact substTemplate_placeholder hm

/-- C1 witness: a Command with one FreeText widget completing with "foo"
executes the substituted template, and placeholder 2 survives a one-argument
substitution. -/
theorem C1_witness :
    runAction envBase (Action.command none "run {0}".data (some [Widget.freeText])) 0 0
        = (Outcome.ok, 0, 1,
            [Event.readlineCall]
              ++ [Event.execRun (substTemplate "run {0}".data ["foo".data])])
      ∧ substTemplate (placeholder 2) ["x".data] = placeholder 2 :=
  ⟨C1.1 envBase none "run {0}".data [Widget.freeText] 0 0 ["foo".data] 1
      [Event.readlineCall] rfl,
   C1.2.1 ["x".data] 2 (by decide)⟩

/-- C2: a FromCommand widget at step index `i` (with `i` already-collected
arguments) runs the shell on its template with exactly the placeholders
`0 .. i-1` substituted (the full substitution over the collected arguments);
every placeholder with index at least `i` is left unchanged, and in
particular a step-0 template is passed entirely unmodified, so a step-0
template "{0}" still contains the literal text "{0}". -/
theorem C2 :
    (∀ (env : Env) (c : Str) (p : Option Str) (rest : List Widget)
        (index : Nat) (args : List Str) (rl : Nat),
        args.length = index →
        ∃ r rl2 evs,
          runWidgets env (Widget.fromCommand c p :: rest) index args rl
            = (r, rl2,
                Event.captureRun (substTemplate c args)
                  :: Event.pickerCall (env.shellOut (substTemplate c args)) p :: evs))
      ∧ (∀ (args : List Str) (j : Nat), args.length ≤ j →
          substTemplate (placeholder j) args = placeholder j)
      ∧ (∀ c : Str, substTemplate c [] = c)
      ∧ substTemplate ('{' :: '0' :: '}' :: []) [] = '{' :: '0' :: '}' :: [] := by
  refine ⟨?_, ?_, fun c => rfl, by decide⟩
  · intro env c p rest index args rl h
    have htake : args.take index = args := by
      rw [← h]; exact List.take_length args
    rcases hp : env.pick (env.shellOut (substAux c args 0)) p with _ | sel
    · refine ⟨WidgetsResult.cancelled, rl, [], ?_⟩
      simp [runWidgets, htake, hp, substTemplate]
    · refine ⟨(runWidgets env rest (index + 1) (args ++ [sel]) rl).1,
        (runWidgets env rest (index + 1) (args ++ [sel]) rl).2.1,
        (runWidgets env rest (index + 1) (args ++ [sel]) rl).2.2, ?_⟩
      simp [runWidgets, htake, hp, substTemplate]
  · intro args j hj
    exact substTemplate_placeholder hj

/-- C2 witness: a FromCommand widget at step 1 with one collected argument
captures the shell run of its substituted template, and a step-0 template is
passed unmodified. -/
theorem C2_witness :
    (∃ r rl2 evs,
        runWidgets envBase (Widget.fromCommand "echo {0}".data none :: []) 1
            ["foo".data] 0
          = (r, rl2,
              Event.captureRun (substTemplate "echo {0}".data ["foo".data])
                :: Event.pickerCall
                    (envBase.shellOut (substTemplate "echo {0}".data ["foo".data]))
                    none :: evs))
      ∧ substTemplate (placeholder 1) ["x".data] = placeholder 1 :=
  ⟨C2.1 envBase "echo {0}".data none [] 1 ["foo".data] 0 (by decide),
   C2.2.1 ["x".data] 1 (by decide)⟩

/-- C3: a picker returning no selection is success, not an error: a Select
whose picker returns none resolves to Ok with no recursion (its whole trace
is the single picker call), and a Command whose widget loop is cancelled by
a picker returning none resolves to Ok with no execution of the final
template (no execRun event in its trace). -/
theorem C3 :
    (∀ (env : Env) (d : Option Str) (opts : List (Str × Action)) (runs rl : Nat),
        ¬ (env.hasCommand = true ∧ runs = 0) →
        env.pick (selectInput (env.iter opts) opts) none = none →
        runAction env (Action.select d opts) runs rl
          = (Outcome.ok, runs, rl,
              [Event.pickerCall (selectInput (env.iter opts) opts) none]))
      ∧ (∀ (env : Env) (d : Option Str) (cmd : Str) (ws : List Widget)
          (runs rl rl2 : Nat) (evs : List Event),
          runWidgets env ws 0 [] rl = (WidgetsResult.cancelled, rl2, evs) →
          runAction env (Action.command d cmd (some ws)) runs rl
              = (Outcome.ok, runs, rl2, evs)
            ∧ ∀ s : Str, Event.execRun s ∉ evs) := by
  refine ⟨?_, ?_⟩
  · intro env d opts runs rl hc hp
    exact select_pick_none_eq env d opts runs rl hc hp
  · intro env d cmd ws runs rl rl2 evs hw
    refine ⟨command_cancelled_eq env d cmd ws runs rl rl2 evs hw, ?_⟩
    intro s
    have hx := runWidgets_no_exec ws env 0 [] rl s
    rw [hw] at hx
    exact hx

/-- C3 witness: cancelling the picker at a concrete Select returns Ok with
only the picker call in the trace, and cancelling at a concrete Command
widget returns Ok with no execution. -/
theorem C3_witness :
    runAction envBase (Action.select none optsAB) 1 0
        = (Outcome.ok, 1, 0,
            [Event.pickerCall (selectInput (envBase.iter optsAB) optsAB) none])
      ∧ runAction envBase
            (Action.command none "c {0}".data (some [Widget.fromCommand "g".data none]))
            0 0
          = (Outcome.ok, 0, 0,
              [Event.captureRun "g".data, Event.pickerCall "x\ny".data none]) :=
  ⟨C3.1 envBase none optsAB 1 0 (by decide) rfl,
   (C3.2 envBase none "c {0}".data [Widget.fromCommand "g".data none] 0 0 0
      [Event.captureRun "g".data, Event.pickerCall "x\ny".data none] rfl).1⟩

/-- C4 counterexample: the claim says an absent child key makes resolution
fail with a ChildNotFound error, but on the code a Select whose picker
returns the label "Z", absent from the children {A, B}, resolves to Ok
(silent success, no error of any kind). -/
theorem C4_cex :
    runAction envPickZ (Action.select none optsAB) 1 0
        = (Outcome.ok, 1, 0,
            [Event.pickerCall (selectInput (envPickZ.iter optsAB) optsAB) none])
      ∧ ∀ e : Str, Outcome.ok ≠ Outcome.err e := by
  refine ⟨?_, fun e h => Outcome.noConfusion h⟩
  rw [runAction.eq_def]
  decide

/-- C4 amended: when the child key recovered from the picked label (after
suffix stripping) is absent from the children mapping, resolution returns Ok
silently, with no recursion and no execution (the trace is the single picker
call). -/
theorem C4_amended :
    ∀ (env : Env) (d : Option Str) (opts : List (Str × Action)) (runs rl : Nat)
      (sel : Str),
      ¬ (env.hasCommand = true ∧ runs = 0) →
      env.pick (selectInput (env.iter opts) opts) none = some sel →
      lookupOpt opts (stripLabel sel) = none →
      runAction env (Action.select d opts) runs rl
        = (Outcome.ok, runs, rl,
            [Event.pickerCall (selectInput (env.iter opts) opts) none]) := by
  intro env d opts runs rl sel hc hp hl
  exact select_pick_some_none_eq env d opts runs rl sel hc hp hl

/-- C4 amended witness: the concrete absent-key selection resolves to Ok. -/
theorem C4_amended_witness :
    runAction envPickZ (Action.select (some "d".data) optsAB) 1 0
      = (Outcome.ok, 1, 0,
          [Event.pickerCall (selectInput (envPickZ.iter optsAB) optsAB) none]) :=
  C4_amended envPickZ (some "d".data) optsAB 1 0 "Z".data (by decide) rfl rfl

/-- C5 counterexample: the claim says the candidate list always follows the
configuration's insertion order, but the children live in a HashMap whose
key iteration order is unspecified; with the (legal) reversed iteration
order the presented candidates differ from the insertion-order candidates,
as the evaluation of a concrete Select shows. -/
theorem C5_cex :
    (reverseIter optsAB).Perm (optsAB.map Prod.fst)
      ∧ selectCandidates (reverseIter optsAB) optsAB ≠ insertionOrderCandidates optsAB
      ∧ runAction envRev (Action.select none optsAB) 1 0
          = (Outcome.ok, 1, 0,
              [Event.pickerCall (selectInput (reverseIter optsAB) optsAB) none])
      ∧ selectInput (reverseIter optsAB) optsAB
          ≠ selectInput (insertionIter optsAB) optsAB := by
  refine ⟨by decide, by decide, ?_, by decide⟩
  rw [runAction.eq_def]
  decide

/-- C5 amended: the candidate list presented to the picker is the children
formatted in the hash map's key iteration order, which is some unspecified
permutation of the configuration's insertion order; the presented list is
therefore always a permutation of the insertion-order candidate list, but
not necessarily equal to it. -/
theorem C5_amended :
    ∀ (env : Env) (opts : List (Str × Action)),
      (env.iter opts).Perm (opts.map Prod.fst) →
      (selectCandidates (env.iter opts) opts).Perm (insertionOrderCandidates opts) := by
  intro env opts h
  exact h.map _

/-- C5 amended witness: the reversed iteration order yields a permutation of
the insertion-order candidates. -/
theorem C5_amended_witness :
    (selectCandidates (reverseIter optsAB) optsAB).Perm
      (insertionOrderCandidates optsAB) :=
  C5_amended envRev optsAB (by decide)

/-- C6 counterexample: the claim says the description is appended exactly
when the child carries a non-empty description, but a child whose
description is present and empty is formatted as "A: " (with the separator
appended), not as the bare label "A". -/
theorem C6_cex :
    selectCandidates ["A".data] optsEmptyDesc = [('A' :: ':' :: ' ' :: [])]
      ∧ ('A' :: ':' :: ' ' :: [] : Str) ≠ "A".data := by
  exact ⟨by decide, by decide⟩

/-- C6 amended: each candidate line is the child's own label, with a colon,
a space and that child node's description appended exactly when the child
carries a description (present, possibly empty); a child without a
description is presented as its bare label; the spec's example children
{A: desc1, B} produce exactly the candidates ["A: desc1", "B"]. -/
theorem C6_amended :
    (∀ (k : Str) (c : Option Action), fmtCandidate k c = specCandidate k c)
      ∧ selectCandidates (insertionIter optsDesc) optsDesc
          = ["A: desc1".data, "B".data] := by
  refine ⟨?_, by decide⟩
  intro k c
  cases c with
  | none => rfl
  | some a =>
    cases a with
    | select d o => cases d <;> rfl
    | command d cc w => cases d <;> rfl

/-- C7: the child key is recovered from a picked line by taking the text
before the first colon: for a label without colons the key is recovered
exactly, whatever the description contains (even further colons, as in the
line "A: a:b" yielding "A"), and a line with no colon at all is used
unchanged as the key. -/
theorem C7 :
    (∀ (label desc : Str), ':' ∉ label →
        stripLabel (label ++ ':' :: ' ' :: desc) = label)
      ∧ (∀ s : Str, ':' ∉ s → stripLabel s = s)
      ∧ stripLabel "A: a:b".data = "A".data := by
  refine ⟨?_, ?_, by decide⟩
  · intro label desc hcl
    have hmem : ':' ∈ label ++ ':' :: ' ' :: desc :=
      List.mem_append_right label (List.mem_cons_self ':' (' ' :: desc))
    simp only [stripLabel, if_pos hmem]
    refine takeWhile_append_stop label ':' (' ' :: desc) ?_ (by decide)
    intro c hc
    have hne : c ≠ ':' := fun he => hcl (he ▸ hc)
    simp [hne]
  · intro s h
    simp only [stripLabel, if_neg h]

/-- C7 witness: the colon-bearing description "a:b" still yields key "A",
and the colon-free line "B" is used unchanged. -/
theorem C7_witness :
    stripLabel ("A".data ++ ':' :: ' ' :: "a:b".data) = "A".data
      ∧ stripLabel "B".data = "B".data :=
  ⟨C7.1 "A".data "a:b".data (by decide), C7.2.1 "B".data (by decide)⟩

/-- C8: with a pre-supplied selection, at a Select evaluated while the
process-wide run counter is zero: an invalid value terminates the process
with exit status 1 after printing exactly the valid labels (a permutation of
the children's labels), with no picker call anywhere in the trace; a valid
value is used as the picked label with no picker call at this node (the
trace is the bypass marker followed by the child's trace); and the bypass
happens at most once per evaluation started at counter zero, and never once
the counter is nonzero. -/
theorem C8 :
    (∀ (env : Env) (d : Option Str) (opts : List (Str × Action)) (rl : Nat),
        env.hasCommand = true →
        env.commandArg ∉ env.iter opts →
        (env.iter opts).Perm (opts.map Prod.fst) →
        ∃ ks, runAction env (Action.select d opts) 0 rl
              = (Outcome.exit 1, 0, rl, [Event.errorPrint ks])
          ∧ ks.Perm (opts.map Prod.fst)
          ∧ ∀ (i : Str) (p : Option Str),
              Event.pickerCall i p ∉ [Event.errorPrint ks])
      ∧ (∀ (env : Env) (d : Option Str) (opts : List (Str × Action)) (rl : Nat)
          (child : Action),
          env.hasCommand = true →
          env.commandArg ∈ env.iter opts →
          lookupOpt opts (stripLabel env.commandArg) = some child →
          runAction env (Action.select d opts) 0 rl
            = ((runAction env child 1 rl).1, (runAction env child 1 rl).2.1,
               (runAction env child 1 rl).2.2.1,
               Event.bypass :: (runAction env child 1 rl).2.2.2))
      ∧ (∀ (env : Env) (a : Action) (rl : Nat),
          countBypass (runAction env a 0 rl).2.2.2 ≤ 1)
      ∧ (∀ (env : Env) (a : Action) (runs rl : Nat), runs ≠ 0 →
          countBypass (runAction env a runs rl).2.2.2 = 0) := by
  refine ⟨?_, ?_, ?_, ?_⟩
  · intro env d opts rl hh hm hperm
    exact ⟨env.iter opts, select_invalid_eq env d opts rl hh hm, hperm, by simp⟩
  · intro env d opts rl child hh hm hl
    exact select_bypass_some_eq env d opts rl child hh hm hl
  · intro env a rl
    exact (bypassAux (sizeOf a) env a 0 rl (le_refl _)).1
  · intro env a runs rl hr
    exact (bypassAux (sizeOf a) env a runs rl (le_refl _)).2 hr

/-- C8 witness: the invalid preselection "zzz" against children {A, B} exits
with status 1 listing the labels and no picker call; the valid preselection
"A" bypasses the picker into child A; the bypass never fires at a nonzero
run counter. -/
theorem C8_witness :
    (∃ ks, runAction envPreBad (Action.select none optsAB) 0 0
          = (Outcome.exit 1, 0, 0, [Event.errorPrint ks])
        ∧ ks.Perm (optsAB.map Prod.fst)
        ∧ ∀ (i : Str) (p : Option Str),
            Event.pickerCall i p ∉ [Event.errorPrint ks])
      ∧ runAction envPreA (Action.select none optsAB) 0 0
          = ((runAction envPreA actA 1 0).1, (runAction envPreA actA 1 0).2.1,
             (runAction envPreA actA 1 0).2.2.1,
             Event.bypass :: (runAction envPreA actA 1 0).2.2.2)
      ∧ countBypass (runAction envPreA (Action.select none optsAB) 1 0).2.2.2 = 0 :=
  ⟨C8.1 envPreBad none optsAB 0 rfl (by decide) (by decide),
   C8.2.1 envPreA none optsAB 0 actA rfl (by decide) rfl,
   C8.2.2.2 envPreA (Action.select none optsAB) 1 0 (by decide)⟩

/-- C9: both shell executors (interactive and output-capturing) insert the
zsh strict-mode flags --shwordsplit, --no-unset, --errexit when the shell is
"zsh", the bash flags -e, -u when it is "bash", and no extra flag before the
-c argument for any other shell name. -/
theorem C9 :
    (∀ cmd : Str,
        run_shell_argv "zsh".data cmd
            = ["--shwordsplit".data, "--no-unset".data, "--errexit".data,
               "-c".data, cmd]
          ∧ run_shell_command_for_output_argv "zsh".data cmd
            = ["--shwordsplit".data, "--no-unset".data, "--errexit".data,
               "-c".data, cmd])
      ∧ (∀ cmd : Str,
          run_shell_argv "bash".data cmd = ["-e".data, "-u".data, "-c".data, cmd]
            ∧ run_shell_command_for_output_argv "bash".data cmd
              = ["-e".data, "-u".data, "-c".data, cmd])
      ∧ (∀ shell cmd : Str, shell ≠ "zsh".data → shell ≠ "bash".data →
          run_shell_argv shell cmd = ["-c".data, cmd]
            ∧ run_shell_command_for_output_argv shell cmd = ["-c".data, cmd]) := by
  refine ⟨fun cmd => ⟨rfl, rfl⟩, fun cmd => ⟨rfl, rfl⟩, ?_⟩
  intro shell cmd h1 h2
  constructor <;> simp [run_shell_argv, run_shell_command_for_output_argv, h1, h2]

/-- C9 witness: the unrecognized shell "sh" gets no extra flags. -/
theorem C9_witness :
    run_shell_argv "sh".data "x".data = ["-c".data, "x".data]
      ∧ run_shell_command_for_output_argv "sh".data "x".data
        = ["-c".data, "x".data] :=
  C9.2.2 "sh".data "x".data (by decide) (by decide)

/-- C10: a Command whose widgets field is absent evaluates with no prompt,
no shell capture and no picker call: its whole trace is the single
interactive execution of the template verbatim. -/
theorem C10 :
    ∀ (env : Env) (d : Option Str) (cmd : Str) (runs rl : Nat),
      runAction env (Action.command d cmd none) runs rl
        = (Outcome.ok, runs, rl, [Event.execRun cmd]) := by
  intro env d cmd runs rl
  exact command_none_eq env d cmd runs rl

end Jaime
